import Mathlib

/-!
Verification of the ResearchNews digest scheduling and ingestion engine.

Shallow embedding of `backend/app/tasks.py`, `backend/app/ingestion.py`,
`backend/app/models.py` and the unsubscribe endpoint of `backend/app/api.py`.
Timestamps are modelled at second granularity (Python's `datetime.combine`
with `time(hour, minute, second)` and `datetime(y, m, d, h, mi, s)` drop
microseconds, so every timestamp the scheduler writes has this form).
-/

/-! ## Calendar model (Python `datetime` / `calendar`, UTC, second granularity) -/

/-- Gregorian leap-year test, as in Python's `calendar.isleap`. -/
def isLeapYear (y : Nat) : Bool :=
  (y % 4 == 0 && y % 100 != 0) || y % 400 == 0

/-- Number of days of month `m` of year `y`, as returned (second component)
by Python's `calendar.monthrange(y, m)`. -/
def daysInMonth (y m : Nat) : Nat :=
  if m = 2 then (if isLeapYear y then 29 else 28)
  else if m = 4 ∨ m = 6 ∨ m = 9 ∨ m = 11 then 30
  else 31

/-- A calendar date (Python `datetime.date`). -/
structure Date where
  year : Nat
  month : Nat
  day : Nat
deriving DecidableEq, Repr

/-- A timestamp at second granularity (Python `datetime.datetime`, UTC). -/
structure DateTime where
  date : Date
  hour : Nat
  minute : Nat
  second : Nat
deriving DecidableEq, Repr

/-- Validity of a date, as enforced by Python's `datetime.date` constructor. -/
def ValidDate (d : Date) : Prop :=
  1 ≤ d.month ∧ d.month ≤ 12 ∧ 1 ≤ d.day ∧ d.day ≤ daysInMonth d.year d.month

instance (d : Date) : Decidable (ValidDate d) := by
  unfold ValidDate; infer_instance

/-- Validity of a timestamp, as enforced by Python's `datetime` constructor. -/
def ValidDateTime (t : DateTime) : Prop :=
  ValidDate t.date ∧ t.hour < 24 ∧ t.minute < 60 ∧ t.second < 60

instance (t : DateTime) : Decidable (ValidDateTime t) := by
  unfold ValidDateTime; infer_instance

/-- Injective monotone key for dates: chronological comparison of valid dates
(Python compares `date` values field-lexicographically) is comparison of keys,
because `month ≤ 12 < 13` and `day ≤ 31 < 32` for every valid date. -/
def dateKey (d : Date) : Nat :=
  d.day + 32 * (d.month + 13 * d.year)

/-- Injective monotone key for timestamps at second granularity. -/
def dtKey (t : DateTime) : Nat :=
  t.second + 60 * (t.minute + 60 * (t.hour + 24 * dateKey t.date))

/-- The successor day, modelling Python's `date + timedelta(days=1)`. -/
def nextDay (d : Date) : Date :=
  if d.day < daysInMonth d.year d.month then ⟨d.year, d.month, d.day + 1⟩
  else if d.month < 12 then ⟨d.year, d.month + 1, 1⟩
  else ⟨d.year + 1, 1, 1⟩

/-- `date + timedelta(days=n)`, as iterated successor. -/
def addDays : Nat → Date → Date
  | 0, d => d
  | n + 1, d => nextDay (addDays n d)

/-! ## Digest frequency and schedule calculator (`tasks.py`) -/

/-- `DigestFrequency` enum from `models.py`. -/
inductive DigestFrequency where
  | DAILY
  | WEEKLY
  | MONTHLY
deriving DecidableEq, Repr

/-- `calculate_next_digest_time` from `tasks.py` (lines 69-119).
`frequency` is the user's `frequency` column (`none` models an
unset/unrecognized value, which falls into the function's `else` branch);
`now` is the value of `datetime.utcnow()` read at the top of the function,
truncated to second granularity.  The hour/minute/second of the result are
taken from `now` itself (the code has no stored per-user digest time). -/
def calculate_next_digest_time (frequency : Option DigestFrequency) (now : DateTime) : DateTime :=
  match frequency with
  | some DigestFrequency.DAILY =>
    -- tomorrow = now.date() + timedelta(days=1); combine with time(h, mi, s)
    ⟨addDays 1 now.date, now.hour, now.minute, now.second⟩
  | some DigestFrequency.WEEKLY =>
    -- next_week = now.date() + timedelta(days=7)
    ⟨addDays 7 now.date, now.hour, now.minute, now.second⟩
  | some DigestFrequency.MONTHLY =>
    -- next_month = now.month + 1; roll the year when next_month > 12;
    -- next_day = min(now.day, monthrange(next_year, next_month)[1])
    let nm := now.date.month + 1
    let nextMonth := if nm > 12 then 1 else nm
    let nextYear := if nm > 12 then now.date.year + 1 else now.date.year
    let lastDay := daysInMonth nextYear nextMonth
    let nextD := min now.date.day lastDay
    ⟨⟨nextYear, nextMonth, nextD⟩, now.hour, now.minute, now.second⟩
  | none =>
    -- default branch: same as DAILY
    ⟨addDays 1 now.date, now.hour, now.minute, now.second⟩

/-- Modelled from the spec's words for the MONTHLY cadence: "advance to the
same calendar day next month, same time-of-day; if the target month has fewer
days than reference_instant's day-of-month, clamp to the last day of the
target month ... December → January rolls the year forward."  Stated
independently of the source, for the refinement theorem of claim C3. -/
def monthly_spec (t : DateTime) : DateTime :=
  let ty := if t.date.month = 12 then t.date.year + 1 else t.date.year
  let tm := if t.date.month = 12 then 1 else t.date.month + 1
  let td := if daysInMonth ty tm < t.date.day then daysInMonth ty tm else t.date.day
  ⟨⟨ty, tm, td⟩, t.hour, t.minute, t.second⟩

/-! ## Recipients and the digest dispatcher (`tasks.py`, `models.py`) -/

/-- `UserAccount` row from `models.py`.  `next_digest_at` and `frequency`
are nullable columns. -/
structure UserAccount where
  id : Nat
  email : String
  name : Option String
  categories : List String
  frequency : Option DigestFrequency
  next_digest_at : Option DateTime
  is_active : Bool
deriving DecidableEq, Repr

/-- The dispatcher's due filter (`tasks.py` lines 132-135):
`next_digest_at <= now AND is_active == True`.  A SQL comparison against a
NULL `next_digest_at` is not true, so such rows are not selected. -/
def isDue (now : DateTime) (u : UserAccount) : Bool :=
  (match u.next_digest_at with
   | some t => dtKey t ≤ dtKey now
   | none => false)
  && u.is_active

/-- Result of one poll cycle: the ids carried by the enqueued
`send_digest_email_task` jobs (in enqueue order) and the persisted table. -/
structure PollResult where
  jobs : List Nat
  users : List UserAccount
deriving DecidableEq, Repr

/-- `check_digest_schedule` from `tasks.py` (lines 122-158), one poll cycle:
select the due rows, enqueue one `send_digest_email_task.delay(user.id)` per
due row (this reaches the broker before the commit), set each due row's
`next_digest_at` to `calculate_next_digest_time`, then commit.  `commitOk`
models the outcome of `db.commit()`: on failure the session is rolled back
(`db.rollback()`), so no column change persists, while the already enqueued
jobs remain enqueued. -/
def check_digest_schedule (now : DateTime) (commitOk : Bool) (db : List UserAccount) : PollResult :=
  let jobs := (db.filter (isDue now)).map (fun u => u.id)
  let updated := db.map (fun u =>
    if isDue now u then
      { u with next_digest_at := some (calculate_next_digest_time u.frequency now) }
    else u)
  if commitOk then ⟨jobs, updated⟩ else ⟨jobs, db⟩

/-! ## Papers and the delivery job (`models.py`, `tasks.py`) -/

/-- `Paper` row from `models.py`.  `published_at` is modelled as an abstract
chronological key (`none` = NULL column); `embedding` is opaque. -/
structure Paper where
  arxiv_id : String
  title : String
  authors : String
  summary : String
  category : Option String
  published_at : Option Nat
  embedding : Option (List Int)
deriving DecidableEq, Repr

/-- Descending comparison on nullable timestamps (PostgreSQL puts NULLs
first in a descending order): `optDescLe x y` means a row timestamped `x`
may appear no later than a row timestamped `y` in the output. -/
def optDescLe : Option Nat → Option Nat → Prop
  | none, _ => True
  | some _, none => False
  | some x, some y => y ≤ x

instance : DecidableRel optDescLe := by
  intro x y; cases x <;> cases y <;> unfold optDescLe <;> infer_instance

/-- `ORDER BY published_at DESC` order on rows. -/
def pubDescLe (a b : Paper) : Prop :=
  optDescLe a.published_at b.published_at

instance : DecidableRel pubDescLe := by
  intro a b; unfold pubDescLe; infer_instance

instance : IsTotal Paper pubDescLe := by
  constructor; intro a b; unfold pubDescLe
  rcases a.published_at with _ | x <;> rcases b.published_at with _ | y <;>
    simp [optDescLe] <;> omega

instance : IsTrans Paper pubDescLe := by
  constructor; intro a b c; unfold pubDescLe
  rcases a.published_at with _ | x <;> rcases b.published_at with _ | y <;>
    rcases c.published_at with _ | z <;> simp [optDescLe] <;> omega

/-- The `WHERE Paper.category IN (user.categories)` filter of the delivery
job's query (`tasks.py` lines 184-186): a NULL category matches nothing. -/
def categoryMatches (u : UserAccount) (p : Paper) : Bool :=
  match p.category with
  | some c => u.categories.contains c
  | none => false

/-- The delivery job's content query (`tasks.py` lines 184-188):
filter by the recipient's categories, order by `published_at` descending,
limit 5. -/
def selectPapers (u : UserAccount) (papers : List Paper) : List Paper :=
  (List.insertionSort pubDescLe (papers.filter (categoryMatches u))).take 5

/-- `send_digest_email_task` from `tasks.py` (lines 161-205).  The db state
is read-only here (`users`, `papers`); `mailOk` models the outcome of
`send_digest_email`, whose exception the task logs and re-raises (the
`.error` case).  Result `.ok (sent, v)`: `sent` lists the
`(recipient email, papers)` messages handed to the mailer and `v` is the
task's return value. -/
def send_digest_email_task (users : List UserAccount) (papers : List Paper)
    (mailOk : Bool) (user_id : Nat) : Except String (List (String × List Paper) × Bool) :=
  match users.find? (fun u => u.id == user_id) with
  | none => Except.ok ([], false)
  | some u =>
    if u.is_active then
      let sel := selectPapers u papers
      if sel.isEmpty then Except.ok ([], false)
      else if mailOk then Except.ok ([(u.email, sel)], true)
      else Except.error "send_digest_email failed"
    else Except.ok ([], false)

/-- The `unsubscribe` endpoint of `api.py` (lines 188-214) after a valid
token: look the user up by id and set `is_active = False` (first match;
a missing user changes nothing — the endpoint returns 404). -/
def unsubscribe : List UserAccount → Nat → List UserAccount
  | [], _ => []
  | u :: rest, uid =>
    if u.id = uid then { u with is_active := false } :: rest
    else u :: unsubscribe rest uid

/-! ## Feed parsing (`ingestion.py`, `parse_arxiv_response`) -/

/-- One `atom:entry` of a feed response, as the fields `parse_arxiv_response`
reads from it.  `idText = none` models both a missing `atom:id` element and
one with empty text (either way `id_url.split` raises in the source, since
`entry.find(...)` yields `None` or `.text` is `None`).  For the other
elements the element/text distinction collapses to `Option`/emptiness as the
source treats them uniformly (`is not None and .text` guards).
`authorNames` are the texts of the `atom:author/atom:name` elements (`none` =
element with no text); `primaryCategoryTerms` the `term` attributes of the
`arxiv:primary_category` elements; `published` the timestamp parsed by
`datetime.fromisoformat`, abstracted to a chronological key. -/
structure Entry where
  idText : Option String
  title : Option String
  authorNames : List (Option String)
  summary : Option String
  primaryCategoryTerms : List String
  published : Option Nat
deriving DecidableEq, Repr

/-- Python's `" ".join(s.split())`: collapse whitespace runs, trim ends. -/
def normWs (s : String) : String :=
  String.intercalate " " ((s.split Char.isWhitespace).filter (fun w => w ≠ ""))

/-- `id_url.split("/")[-1]` (the list `splitOn` returns is never empty). -/
def lastSegment (s : String) : String :=
  (s.splitOn "/").getLastD ""

/-- A paper dictionary as built by `parse_arxiv_response` (one per entry). -/
structure PaperDict where
  arxiv_id : String
  title : String
  authors : String
  summary : String
  category : Option String
  published_at : Option Nat
deriving DecidableEq, Repr

/-- The body of `parse_arxiv_response`'s per-entry loop (`ingestion.py`
lines 108-145).  A missing/empty `atom:id` raises (`.error`, Python
`AttributeError` on `None`); every other missing field degrades. -/
def parse_entry (e : Entry) : Except String PaperDict :=
  match e.idText with
  | none => Except.error "AttributeError: entry has no id text"
  | some idUrl =>
    Except.ok
      { arxiv_id := lastSegment idUrl
        title := match e.title with
          | some t => normWs t
          | none => ""
        authors := String.intercalate ", "
          ((e.authorNames.filterMap id).filter (fun a => a ≠ ""))
        summary := match e.summary with
          | some s => normWs s
          | none => ""
        category := e.primaryCategoryTerms.head?
        published_at := e.published }

/-- `parse_arxiv_response` (`ingestion.py` lines 102-147): the loop over the
entries; the first raising entry aborts the whole parse. -/
def parse_arxiv_response : List Entry → Except String (List PaperDict)
  | [] => Except.ok []
  | e :: rest =>
    match parse_entry e with
    | Except.error m => Except.error m
    | Except.ok p =>
      match parse_arxiv_response rest with
      | Except.error m => Except.error m
      | Except.ok ps => Except.ok (p :: ps)

/-! ## Fetching with retry (`ingestion.py`, `fetch_papers`) -/

/-- Outcome of one HTTP attempt of the fetch loop, as distinguished by its
`except` clauses: `timeout` = `httpx.TimeoutException`, `httpError` =
`httpx.HTTPError` (transport errors and the `raise_for_status` failures),
`otherError` = any other exception, `success` = a 2xx response whose body
decomposes into the given entries (its parse may still raise). -/
inductive AttemptOutcome where
  | timeout
  | httpError
  | otherError
  | success (entries : List Entry)
deriving DecidableEq, Repr

/-- Externally visible timing events of the fetch pipeline: an HTTP request
to the feed (`call`) or a sleep of the given number of seconds (`wait`,
covering both `time.sleep` and `asyncio.sleep`). -/
inductive FetchEvent where
  | call
  | wait (secs : Nat)
deriving DecidableEq, Repr

/-- The `for attempt in range(max_retries)` loop of `fetch_papers`
(`ingestion.py` lines 54-99).  `o attempt` is the outcome of the HTTP request
of that attempt; `rem` is the number of loop iterations left (the entry point
passes `rem = maxR`).  On success the code sleeps 3 seconds (rate limit) and
then returns the parse; if the parse raises, the generic `except Exception`
catches it.  Every failure on a non-final attempt backs off
`5 * 2 ^ attempt` seconds and retries; on the final attempt it returns `[]`
with no wait.  The second component is the emitted event trace. -/
def fetchLoop (o : Nat → AttemptOutcome) (maxR : Nat) :
    Nat → Nat → List PaperDict × List FetchEvent
  | _, 0 => ([], [])
  | attempt, rem + 1 =>
    match o attempt with
    | AttemptOutcome.success entries =>
      match parse_arxiv_response entries with
      | Except.ok ps => (ps, [FetchEvent.call, FetchEvent.wait 3])
      | Except.error _ =>
        if attempt < maxR - 1 then
          let r := fetchLoop o maxR (attempt + 1) rem
          (r.1, FetchEvent.call :: FetchEvent.wait 3 ::
            FetchEvent.wait (5 * 2 ^ attempt) :: r.2)
        else ([], [FetchEvent.call, FetchEvent.wait 3])
    | _ =>
      if attempt < maxR - 1 then
        let r := fetchLoop o maxR (attempt + 1) rem
        (r.1, FetchEvent.call :: FetchEvent.wait (5 * 2 ^ attempt) :: r.2)
      else ([], [FetchEvent.call])

/-- `fetch_papers` (`ingestion.py` lines 25-99) for one category.  The
category only shapes the request parameters, which the outcome function `o`
already accounts for; `maxR` is `max_retries` (default 3). -/
def fetch_papers (category : String) (o : Nat → AttemptOutcome)
    (maxR : Nat := 3) : List PaperDict × List FetchEvent :=
  fetchLoop o maxR 0 maxR

/-! ## Storing (`ingestion.py`, `store_papers`) and ingestion driver -/

/-- `Paper(**paper_dict)` with `embedding = None`
(`ingestion.py` lines 169-171). -/
def toPaper (pd : PaperDict) : Paper :=
  { arxiv_id := pd.arxiv_id, title := pd.title, authors := pd.authors
    summary := pd.summary, category := pd.category
    published_at := pd.published_at, embedding := none }

/-- `store_papers` (`ingestion.py` lines 161-221): for each candidate, query
for an existing row with the same `arxiv_id` (the session autoflushes, so a
row added earlier in the same call is visible) and insert only when absent.
The fallback branch after a failed bulk commit replays exactly this
existence-checked insert per record with raw SQL, so the committed result is
the same fold. -/
def store_papers (papers : List PaperDict) (db : List Paper) : List Paper :=
  papers.foldl
    (fun acc pd =>
      if acc.any (fun p => p.arxiv_id == pd.arxiv_id) then acc
      else acc ++ [toPaper pd])
    db

/-- `ingest_papers_for_categories` (`ingestion.py` lines 150-158): fetch and
store per configured category, sequentially on one session.  Each category is
a name paired with its attempt-outcome function; the result is the final
table and the concatenated timing trace. -/
def ingest_papers_for_categories (cats : List (String × (Nat → AttemptOutcome)))
    (db : List Paper) : List Paper × List FetchEvent :=
  match cats with
  | [] => (db, [])
  | (c, o) :: rest =>
    let f := fetch_papers c o
    let r := ingest_papers_for_categories rest (store_papers f.1 db)
    (r.1, f.2 ++ r.2)

/-- Seconds elapsed between consecutive `call` events of a trace (sum of the
waits separating them), given the wait seconds accumulated since the previous
call (`none` before the first call). -/
def callGapsAux : List FetchEvent → Option Nat → List Nat
  | [], _ => []
  | FetchEvent.wait _ :: rest, none => callGapsAux rest none
  | FetchEvent.wait n :: rest, some acc => callGapsAux rest (some (acc + n))
  | FetchEvent.call :: rest, none => callGapsAux rest (some 0)
  | FetchEvent.call :: rest, some acc => acc :: callGapsAux rest (some 0)

/-- The list of spacings between successive feed calls of a trace. -/
def callGaps (evs : List FetchEvent) : List Nat :=
  callGapsAux evs none

/-- How one parsed candidate relates to its entry: the id comes from the last
path segment of the `atom:id` text, and each missing optional field degrades
(title/authors/summary to the empty string, category to `none`). -/
def entryDegrades (e : Entry) (p : PaperDict) : Prop :=
  (∀ s, e.idText = some s → p.arxiv_id = lastSegment s) ∧
  (e.title = none → p.title = "") ∧
  (e.summary = none → p.summary = "") ∧
  (e.authorNames = [] → p.authors = "") ∧
  (e.primaryCategoryTerms = [] → p.category = none) ∧
  p.published_at = e.published

/-! ## Calendar lemmas -/

theorem daysInMonth_bounds (y m : Nat) : 28 ≤ daysInMonth y m ∧ daysInMonth y m ≤ 31 := by
  unfold daysInMonth
  split_ifs <;> omega

theorem nextDay_valid {d : Date} (h : ValidDate d) : ValidDate (nextDay d) := by
  obtain ⟨hm1, hm2, hd1, hd2⟩ := h
  have hb1 := daysInMonth_bounds d.year (d.month + 1)
  have hb2 := daysInMonth_bounds (d.year + 1) 1
  unfold nextDay
  split_ifs with h1 h2 <;> simp only [ValidDate] <;> omega

theorem dateKey_lt_nextDay {d : Date} (h : ValidDate d) : dateKey d < dateKey (nextDay d) := by
  obtain ⟨hm1, hm2, hd1, hd2⟩ := h
  have hb := daysInMonth_bounds d.year d.month
  unfold nextDay
  split_ifs with h1 h2 <;> simp only [dateKey] <;> omega

theorem addDays_valid {d : Date} (h : ValidDate d) (n : Nat) : ValidDate (addDays n d) := by
  induction n with
  | zero => exact h
  | succ k ih => exact nextDay_valid ih

theorem dateKey_le_addDays {d : Date} (h : ValidDate d) (n : Nat) :
    dateKey d ≤ dateKey (addDays n d) := by
  induction n with
  | zero => exact Nat.le_refl _
  | succ k ih =>
    exact Nat.le_trans ih (Nat.le_of_lt (dateKey_lt_nextDay (addDays_valid h k)))

theorem dateKey_lt_addDays {d : Date} (h : ValidDate d) (n : Nat) (hn : 1 ≤ n) :
    dateKey d < dateKey (addDays n d) := by
  cases n with
  | zero => omega
  | succ k =>
    exact Nat.lt_of_le_of_lt (dateKey_le_addDays h k) (dateKey_lt_nextDay (addDays_valid h k))

theorem dtKey_lt_of_dateKey_lt {a b : Date} {h mi s : Nat} (hab : dateKey a < dateKey b) :
    dtKey ⟨a, h, mi, s⟩ < dtKey ⟨b, h, mi, s⟩ := by
  simp only [dtKey]
  omega

/-- C2: for every cadence (DAILY, WEEKLY, MONTHLY, and the unknown-cadence
fallback) and every valid reference instant `t`, the computed next delivery
instant is strictly later than `t`: no recipient is ever scheduled into the
past or present. -/
theorem next_digest_time_strictly_future (f : Option DigestFrequency) (t : DateTime)
    (h : ValidDateTime t) : dtKey t < dtKey (calculate_next_digest_time f t) := by
  obtain ⟨hd, _, _, _⟩ := h
  have heta : t = ⟨t.date, t.hour, t.minute, t.second⟩ := rfl
  rcases f with _ | f
  · rw [heta]
    exact dtKey_lt_of_dateKey_lt (dateKey_lt_addDays hd 1 (by omega))
  · cases f with
    | DAILY =>
      rw [heta]
      exact dtKey_lt_of_dateKey_lt (dateKey_lt_addDays hd 1 (by omega))
    | WEEKLY =>
      rw [heta]
      exact dtKey_lt_of_dateKey_lt (dateKey_lt_addDays hd 7 (by omega))
    | MONTHLY =>
      obtain ⟨hm1, hm2, hd1, hd2⟩ := hd
      have hb := daysInMonth_bounds t.date.year t.date.month
      rw [heta]
      apply dtKey_lt_of_dateKey_lt
      simp only [calculate_next_digest_time, dateKey]
      split_ifs with h12
      · have hb2 := daysInMonth_bounds (t.date.year + 1) 1
        omega
      · have hb2 := daysInMonth_bounds t.date.year (t.date.month + 1)
        omega

/-- C2 witness: a concrete valid instant scheduled strictly forward. -/
theorem next_digest_time_strictly_future_witness :
    ValidDateTime ⟨⟨2024, 3, 10⟩, 9, 15, 0⟩ ∧
      dtKey ⟨⟨2024, 3, 10⟩, 9, 15, 0⟩ <
        dtKey (calculate_next_digest_time (some DigestFrequency.MONTHLY) ⟨⟨2024, 3, 10⟩, 9, 15, 0⟩) :=
  ⟨by decide,
    next_digest_time_strictly_future (some DigestFrequency.MONTHLY) ⟨⟨2024, 3, 10⟩, 9, 15, 0⟩ (by decide)⟩

/-- C3: for every valid reference instant, the MONTHLY calculation advances
to the same calendar day of the next month with the same time-of-day,
clamping to the last day of the target month when that month is shorter, and
rolling the year forward from December — i.e. it coincides with the
spec-worded `monthly_spec`. -/
theorem monthly_next_digest_time_spec (t : DateTime) (h : ValidDateTime t) :
    calculate_next_digest_time (some DigestFrequency.MONTHLY) t = monthly_spec t := by
  obtain ⟨⟨hm1, hm2, hd1, hd2⟩, _, _, _⟩ := h
  simp only [calculate_next_digest_time, monthly_spec, DateTime.mk.injEq, Date.mk.injEq,
    and_true]
  refine ⟨?_, ?_, ?_⟩ <;> split_ifs <;> omega

/-- C3 witness: Jan 31, 2025 (non-leap) clamps to Feb 28, 2025, same
time-of-day. -/
theorem monthly_next_digest_time_spec_witness :
    ValidDateTime ⟨⟨2025, 1, 31⟩, 9, 0, 0⟩ ∧
      calculate_next_digest_time (some DigestFrequency.MONTHLY) ⟨⟨2025, 1, 31⟩, 9, 0, 0⟩ =
        monthly_spec ⟨⟨2025, 1, 31⟩, 9, 0, 0⟩ ∧
      calculate_next_digest_time (some DigestFrequency.MONTHLY) ⟨⟨2025, 1, 31⟩, 9, 0, 0⟩ =
        ⟨⟨2025, 2, 28⟩, 9, 0, 0⟩ :=
  ⟨by decide, monthly_next_digest_time_spec ⟨⟨2025, 1, 31⟩, 9, 0, 0⟩ (by decide), by decide⟩

/-! ## Dispatcher theorems (claims C1, C7) -/

/-- C1: in a poll cycle (with the commit succeeding), exactly the active
recipients with a set `next_digest_at ≤ now` are selected as due; exactly one
job is enqueued per due recipient; inactive recipients are never due; and the
persisted table changes only the due recipients' `next_digest_at` field (all
other fields of every row, and non-due rows entirely, are untouched). -/
theorem check_digest_schedule_selects_due (now : DateTime) (db : List UserAccount)
    (hids : (db.map (fun u => u.id)).Nodup) :
    (∀ u ∈ db, isDue now u = true ↔
        (u.is_active = true ∧ ∃ t, u.next_digest_at = some t ∧ dtKey t ≤ dtKey now)) ∧
    (∀ u ∈ db, u.is_active = false → isDue now u = false) ∧
    (∀ u ∈ db, isDue now u = true →
        (check_digest_schedule now true db).jobs.count u.id = 1) ∧
    (∀ u ∈ db, isDue now u = false →
        (check_digest_schedule now true db).jobs.count u.id = 0) ∧
    List.Forall₂ (fun u v =>
        v.id = u.id ∧ v.email = u.email ∧ v.name = u.name ∧
        v.categories = u.categories ∧ v.frequency = u.frequency ∧
        v.is_active = u.is_active ∧
        (isDue now u = false → v = u) ∧
        (isDue now u = true →
          v.next_digest_at = some (calculate_next_digest_time u.frequency now)))
      db (check_digest_schedule now true db).users := by
  have hcount : ∀ u : UserAccount, (check_digest_schedule now true db).jobs.count u.id
      = db.countP (fun x => (x.id == u.id) && isDue now x) := by
    intro u
    show ((db.filter (isDue now)).map (fun v => v.id)).count u.id = _
    rw [List.count_eq_countP, List.countP_map, List.countP_filter]
    rfl
  refine ⟨?_, ?_, ?_, ?_, ?_⟩
  · intro u _
    cases hnd : u.next_digest_at with
    | none => simp [isDue, hnd]
    | some t =>
      simp only [isDue, hnd, Bool.and_eq_true, decide_eq_true_eq, Option.some.injEq]
      constructor
      · rintro ⟨h1, h2⟩
        exact ⟨h2, t, rfl, h1⟩
      · rintro ⟨h2, t2, ht2, h1⟩
        exact ⟨ht2 ▸ h1, h2⟩
  · intro u _ hina
    simp [isDue, hina]
  · intro u hu hdue
    rw [hcount]
    have hupper : db.countP (fun x => (x.id == u.id) && isDue now x)
        ≤ db.countP (fun x => x.id == u.id) :=
      List.countP_mono_left (by
        intro x _ hpx
        exact ((Bool.and_eq_true _ _).mp hpx).1)
    have heq : db.countP (fun x => x.id == u.id) = (db.map (fun v => v.id)).count u.id := by
      rw [List.count_eq_countP, List.countP_map]
      rfl
    have hle1 := List.nodup_iff_count_le_one.mp hids u.id
    have hlower : 0 < db.countP (fun x => (x.id == u.id) && isDue now x) :=
      List.countP_pos_iff.mpr ⟨u, hu, by simp [hdue]⟩
    omega
  · intro u hu hdue
    rw [hcount]
    by_contra hne
    have hpos : 0 < db.countP (fun x => (x.id == u.id) && isDue now x) := by omega
    obtain ⟨v, hv, hpv⟩ := List.countP_pos_iff.mp hpos
    obtain ⟨hid, hdv⟩ := (Bool.and_eq_true _ _).mp hpv
    have hvu : v = u := List.inj_on_of_nodup_map hids hv hu (by simpa using hid)
    rw [hvu] at hdv
    rw [hdv] at hdue
    exact Bool.true_eq_false.mp hdue
  · show List.Forall₂ _ db (db.map _)
    rw [List.forall₂_map_right_iff, List.forall₂_same]
    intro u _
    cases hdue : isDue now u <;> simp [hdue]

/-- C7: when the commit of a poll cycle fails, the session is rolled back, so
no recipient's `next_digest_at` change persists (the persisted table is
exactly the previous one); consequently every recipient that was due is still
due at any later poll tick and is retried wholesale. -/
theorem check_digest_schedule_commit_failure (now now2 : DateTime) (db : List UserAccount)
    (hle : dtKey now ≤ dtKey now2) :
    (check_digest_schedule now false db).users = db ∧
    ∀ u ∈ db, isDue now u = true → isDue now2 u = true := by
  refine ⟨rfl, ?_⟩
  intro u _ hdue
  cases hnd : u.next_digest_at with
  | none => simp [isDue, hnd] at hdue
  | some t =>
    simp only [isDue, hnd, Bool.and_eq_true, decide_eq_true_eq] at hdue ⊢
    exact ⟨by omega, hdue.2⟩

/-- C1 witness: at noon, a recipient due an hour ago, one due an hour later
and an inactive overdue one — exactly one job, for the due recipient. -/
theorem check_digest_schedule_selects_due_witness :
    (([⟨1, "a@x.io", none, ["cs.AI"], some DigestFrequency.DAILY,
        some ⟨⟨2024, 3, 10⟩, 11, 0, 0⟩, true⟩,
      ⟨2, "b@x.io", none, ["cs.LG"], some DigestFrequency.WEEKLY,
        some ⟨⟨2024, 3, 10⟩, 13, 0, 0⟩, true⟩,
      ⟨3, "c@x.io", none, ["math"], some DigestFrequency.DAILY,
        some ⟨⟨2024, 3, 1⟩, 0, 0, 0⟩, false⟩] : List UserAccount).map
          (fun u => u.id)).Nodup ∧
    (∀ u ∈ ([⟨1, "a@x.io", none, ["cs.AI"], some DigestFrequency.DAILY,
        some ⟨⟨2024, 3, 10⟩, 11, 0, 0⟩, true⟩,
      ⟨2, "b@x.io", none, ["cs.LG"], some DigestFrequency.WEEKLY,
        some ⟨⟨2024, 3, 10⟩, 13, 0, 0⟩, true⟩,
      ⟨3, "c@x.io", none, ["math"], some DigestFrequency.DAILY,
        some ⟨⟨2024, 3, 1⟩, 0, 0, 0⟩, false⟩] : List UserAccount),
      isDue ⟨⟨2024, 3, 10⟩, 12, 0, 0⟩ u = true →
        (check_digest_schedule ⟨⟨2024, 3, 10⟩, 12, 0, 0⟩ true
          [⟨1, "a@x.io", none, ["cs.AI"], some DigestFrequency.DAILY,
            some ⟨⟨2024, 3, 10⟩, 11, 0, 0⟩, true⟩,
          ⟨2, "b@x.io", none, ["cs.LG"], some DigestFrequency.WEEKLY,
            some ⟨⟨2024, 3, 10⟩, 13, 0, 0⟩, true⟩,
          ⟨3, "c@x.io", none, ["math"], some DigestFrequency.DAILY,
            some ⟨⟨2024, 3, 1⟩, 0, 0, 0⟩, false⟩]).jobs.count u.id = 1) ∧
    (check_digest_schedule ⟨⟨2024, 3, 10⟩, 12, 0, 0⟩ true
      [⟨1, "a@x.io", none, ["cs.AI"], some DigestFrequency.DAILY,
        some ⟨⟨2024, 3, 10⟩, 11, 0, 0⟩, true⟩,
      ⟨2, "b@x.io", none, ["cs.LG"], some DigestFrequency.WEEKLY,
        some ⟨⟨2024, 3, 10⟩, 13, 0, 0⟩, true⟩,
      ⟨3, "c@x.io", none, ["math"], some DigestFrequency.DAILY,
        some ⟨⟨2024, 3, 1⟩, 0, 0, 0⟩, false⟩]).jobs = [1] :=
  ⟨by decide,
    (check_digest_schedule_selects_due ⟨⟨2024, 3, 10⟩, 12, 0, 0⟩ _ (by decide)).2.2.1,
    by decide⟩

/-- C7 witness: a failed commit leaves the table unchanged and the due
recipient still due 15 minutes later. -/
theorem check_digest_schedule_commit_failure_witness :
    dtKey ⟨⟨2024, 3, 10⟩, 12, 0, 0⟩ ≤ dtKey ⟨⟨2024, 3, 10⟩, 12, 15, 0⟩ ∧
    ((check_digest_schedule ⟨⟨2024, 3, 10⟩, 12, 0, 0⟩ false
        [⟨1, "a@x.io", none, ["cs.AI"], some DigestFrequency.DAILY,
          some ⟨⟨2024, 3, 10⟩, 11, 0, 0⟩, true⟩]).users =
      [⟨1, "a@x.io", none, ["cs.AI"], some DigestFrequency.DAILY,
        some ⟨⟨2024, 3, 10⟩, 11, 0, 0⟩, true⟩] ∧
    ∀ u ∈ ([⟨1, "a@x.io", none, ["cs.AI"], some DigestFrequency.DAILY,
        some ⟨⟨2024, 3, 10⟩, 11, 0, 0⟩, true⟩] : List UserAccount),
      isDue ⟨⟨2024, 3, 10⟩, 12, 0, 0⟩ u = true →
        isDue ⟨⟨2024, 3, 10⟩, 12, 15, 0⟩ u = true) :=
  ⟨by decide,
    check_digest_schedule_commit_failure ⟨⟨2024, 3, 10⟩, 12, 0, 0⟩
      ⟨⟨2024, 3, 10⟩, 12, 15, 0⟩ _ (by decide)⟩

/-! ## Delivery job theorems (claims C4, C10) -/

/-- C4: for a found, active recipient the delivery job's selection is exactly
the content whose category is among the recipient's categories, ordered by
`published_at` descending, capped at 5 (so when at most 5 records match, it
is a permutation of all matching records); when nothing matches, the job
sends no email and returns normally (`.ok`, value `False`) — the recipient's
rows are untouched by the job, so `next_digest_at` stays as the dispatcher
advanced it; when the selection is non-empty and the mailer succeeds, exactly
one email with the selection goes to the recipient's address. -/
theorem send_digest_email_task_selection (users : List UserAccount) (papers : List Paper)
    (mailOk : Bool) (uid : Nat) (u : UserAccount)
    (hfind : users.find? (fun v => v.id == uid) = some u)
    (hact : u.is_active = true) :
    (selectPapers u papers).length ≤ 5 ∧
    (∀ p ∈ selectPapers u papers, categoryMatches u p = true) ∧
    List.Sorted pubDescLe (selectPapers u papers) ∧
    (∀ p ∈ selectPapers u papers, p ∈ papers.filter (categoryMatches u)) ∧
    ((papers.filter (categoryMatches u)).length ≤ 5 →
      (selectPapers u papers).Perm (papers.filter (categoryMatches u))) ∧
    (papers.filter (categoryMatches u) = [] →
      send_digest_email_task users papers mailOk uid = Except.ok ([], false)) ∧
    (selectPapers u papers ≠ [] → mailOk = true →
      send_digest_email_task users papers mailOk uid =
        Except.ok ([(u.email, selectPapers u papers)], true)) := by
  have hsub : ∀ p ∈ selectPapers u papers, p ∈ papers.filter (categoryMatches u) := by
    intro p hp
    have h1 : p ∈ List.insertionSort pubDescLe (papers.filter (categoryMatches u)) :=
      (List.take_sublist _ _).subset hp
    exact (List.perm_insertionSort pubDescLe _).mem_iff.mp h1
  refine ⟨List.length_take_le _ _, ?_, ?_, hsub, ?_, ?_, ?_⟩
  · intro p hp
    exact (List.mem_filter.mp (hsub p hp)).2
  · exact List.Pairwise.sublist (List.take_sublist _ _)
      (List.sorted_insertionSort pubDescLe _)
  · intro hlen
    have hlen2 : (List.insertionSort pubDescLe (papers.filter (categoryMatches u))).length ≤ 5 :=
      le_trans (le_of_eq (List.perm_insertionSort pubDescLe _).length_eq) hlen
    unfold selectPapers
    rw [List.take_of_length_le hlen2]
    exact List.perm_insertionSort pubDescLe _
  · intro hfil
    have hsel : selectPapers u papers = [] := by
      unfold selectPapers
      rw [hfil]
      rfl
    simp [send_digest_email_task, hfind, hact, hsel]
  · intro hne hmail
    have hemp : (selectPapers u papers).isEmpty = false := by
      cases hsel : selectPapers u papers with
      | nil => exact absurd hsel hne
      | cons a l => rfl
    simp [send_digest_email_task, hfind, hact, hemp, hmail]

/-- C4 witness: a recipient with categories `{"cs.AI"}`, two matching records
and one non-matching record gets exactly the two matching records, newest
first. -/
theorem send_digest_email_task_selection_witness :
    ([⟨9, "r@x.io", none, ["cs.AI"], some DigestFrequency.DAILY, none, true⟩]
        : List UserAccount).find? (fun v => v.id == 9) =
      some ⟨9, "r@x.io", none, ["cs.AI"], some DigestFrequency.DAILY, none, true⟩ ∧
    (selectPapers ⟨9, "r@x.io", none, ["cs.AI"], some DigestFrequency.DAILY, none, true⟩
        [⟨"p1", "t1", "", "", some "cs.AI", some 100, none⟩,
         ⟨"p2", "t2", "", "", some "math", some 300, none⟩,
         ⟨"p3", "t3", "", "", some "cs.AI", some 200, none⟩] ≠ [] → true = true →
      send_digest_email_task
          [⟨9, "r@x.io", none, ["cs.AI"], some DigestFrequency.DAILY, none, true⟩]
          [⟨"p1", "t1", "", "", some "cs.AI", some 100, none⟩,
           ⟨"p2", "t2", "", "", some "math", some 300, none⟩,
           ⟨"p3", "t3", "", "", some "cs.AI", some 200, none⟩] true 9 =
        Except.ok ([("r@x.io",
          selectPapers ⟨9, "r@x.io", none, ["cs.AI"], some DigestFrequency.DAILY, none, true⟩
            [⟨"p1", "t1", "", "", some "cs.AI", some 100, none⟩,
             ⟨"p2", "t2", "", "", some "math", some 300, none⟩,
             ⟨"p3", "t3", "", "", some "cs.AI", some 200, none⟩])], true)) ∧
    selectPapers ⟨9, "r@x.io", none, ["cs.AI"], some DigestFrequency.DAILY, none, true⟩
        [⟨"p1", "t1", "", "", some "cs.AI", some 100, none⟩,
         ⟨"p2", "t2", "", "", some "math", some 300, none⟩,
         ⟨"p3", "t3", "", "", some "cs.AI", some 200, none⟩] =
      [⟨"p3", "t3", "", "", some "cs.AI", some 200, none⟩,
       ⟨"p1", "t1", "", "", some "cs.AI", some 100, none⟩] :=
  ⟨by decide,
    (send_digest_email_task_selection _ _ true 9 _ (by decide) (by decide)).2.2.2.2.2.2,
    by decide⟩

/-- Looking a user up after `unsubscribe` finds the same row with
`is_active` cleared (or still nothing). -/
theorem find?_unsubscribe (users : List UserAccount) (uid : Nat) :
    (unsubscribe users uid).find? (fun v => v.id == uid) =
      (users.find? (fun v => v.id == uid)).map (fun u => { u with is_active := false }) := by
  induction users with
  | nil => rfl
  | cons u rest ih =>
    by_cases hid : u.id = uid
    · simp only [unsubscribe, if_pos hid]
      have h1 : List.find? (fun v => v.id == uid) ({ u with is_active := false } :: rest)
          = some { u with is_active := false } :=
        List.find?_cons_of_pos _ (by simp [hid])
      have h2 : List.find? (fun v => v.id == uid) (u :: rest) = some u :=
        List.find?_cons_of_pos _ (by simp [hid])
      rw [h1, h2]
      rfl
    · simp only [unsubscribe, if_neg hid]
      have h1 : List.find? (fun v => v.id == uid) (u :: unsubscribe rest uid)
          = List.find? (fun v => v.id == uid) (unsubscribe rest uid) :=
        List.find?_cons_of_neg _ (by simp [hid])
      have h2 : List.find? (fun v => v.id == uid) (u :: rest)
          = List.find? (fun v => v.id == uid) rest :=
        List.find?_cons_of_neg _ (by simp [hid])
      rw [h1, h2, ih]

/-- C10: a delivery job whose recipient no longer exists or is inactive at
execution time sends no email and returns normally; in particular a recipient
unsubscribed after being claimed by the dispatcher never receives that
digest. -/
theorem send_digest_email_task_skips_inactive (users : List UserAccount) (papers : List Paper)
    (mailOk : Bool) (uid : Nat) :
    ((∀ u, users.find? (fun v => v.id == uid) = some u → u.is_active = false) →
      send_digest_email_task users papers mailOk uid = Except.ok ([], false)) ∧
    send_digest_email_task (unsubscribe users uid) papers mailOk uid =
      Except.ok ([], false) := by
  have hskip : ∀ (us : List UserAccount),
      (∀ u, us.find? (fun v => v.id == uid) = some u → u.is_active = false) →
      send_digest_email_task us papers mailOk uid = Except.ok ([], false) := by
    intro us h
    cases hf : us.find? (fun v => v.id == uid) with
    | none => simp [send_digest_email_task, hf]
    | some u =>
      have hina := h u hf
      simp [send_digest_email_task, hf, hina]
  refine ⟨hskip users, hskip _ ?_⟩
  intro u hu
  rw [find?_unsubscribe] at hu
  cases hf : users.find? (fun v => v.id == uid) with
  | none => rw [hf] at hu; exact absurd hu (by simp)
  | some v =>
    rw [hf] at hu
    have : ({ v with is_active := false } : UserAccount) = u := by
      simpa using hu
    rw [← this]

/-- C10 witness: a job for a missing recipient and for a just-unsubscribed
recipient both do nothing, without error. -/
theorem send_digest_email_task_skips_inactive_witness :
    ((∀ u, ([⟨7, "z@x.io", none, ["cs.AI"], none, none, false⟩]
        : List UserAccount).find? (fun v => v.id == 7) = some u → u.is_active = false) →
      send_digest_email_task [⟨7, "z@x.io", none, ["cs.AI"], none, none, false⟩]
        [⟨"p1", "t1", "", "", some "cs.AI", some 100, none⟩] true 7 =
          Except.ok ([], false)) ∧
    send_digest_email_task
        (unsubscribe [⟨7, "z@x.io", none, ["cs.AI"], none, none, true⟩] 7)
        [⟨"p1", "t1", "", "", some "cs.AI", some 100, none⟩] true 7 =
      Except.ok ([], false) :=
  ⟨(send_digest_email_task_skips_inactive
      [⟨7, "z@x.io", none, ["cs.AI"], none, none, false⟩]
      [⟨"p1", "t1", "", "", some "cs.AI", some 100, none⟩] true 7).1,
    (send_digest_email_task_skips_inactive
      [⟨7, "z@x.io", none, ["cs.AI"], none, none, true⟩]
      [⟨"p1", "t1", "", "", some "cs.AI", some 100, none⟩] true 7).2⟩

/-! ## Content store theorems (claim C6) -/

theorem store_papers_cons (c : PaperDict) (cs : List PaperDict) (db : List Paper) :
    store_papers (c :: cs) db =
      store_papers cs
        (if db.any (fun p => p.arxiv_id == c.arxiv_id) then db else db ++ [toPaper c]) :=
  rfl

/-- `store_papers` only appends: existing rows are never modified. -/
theorem store_papers_extends (cs : List PaperDict) (db : List Paper) :
    ∃ new, store_papers cs db = db ++ new := by
  induction cs generalizing db with
  | nil => exact ⟨[], by simp [store_papers]⟩
  | cons c cs ih =>
    rw [store_papers_cons]
    by_cases hany : db.any (fun p => p.arxiv_id == c.arxiv_id) = true
    · rw [if_pos hany]
      exact ih db
    · rw [if_neg hany]
      obtain ⟨new, hnew⟩ := ih (db ++ [toPaper c])
      exact ⟨toPaper c :: new, by rw [hnew, List.append_assoc]; rfl⟩

theorem store_papers_any_mono (cs : List PaperDict) (db : List Paper)
    (q : Paper → Bool) (h : db.any q = true) : (store_papers cs db).any q = true := by
  obtain ⟨new, hnew⟩ := store_papers_extends cs db
  rw [hnew, List.any_append, h]
  rfl

/-- After a store, every candidate's key is present. -/
theorem store_papers_key_present (cs : List PaperDict) (db : List Paper) :
    ∀ c ∈ cs, (store_papers cs db).any (fun p => p.arxiv_id == c.arxiv_id) = true := by
  induction cs generalizing db with
  | nil => intro c hc; exact absurd hc (List.not_mem_nil c)
  | cons c0 cs ih =>
    intro c hc
    rw [store_papers_cons]
    rcases List.mem_cons.mp hc with hceq | hcs
    · subst hceq
      by_cases hany : db.any (fun p => p.arxiv_id == c.arxiv_id) = true
      · rw [if_pos hany]
        exact store_papers_any_mono cs db _ hany
      · rw [if_neg hany]
        apply store_papers_any_mono
        rw [List.any_append]
        have : (toPaper c).arxiv_id == c.arxiv_id := by
          simp [toPaper]
        simp [this]
    · by_cases hany : db.any (fun p => p.arxiv_id == c0.arxiv_id) = true
      · rw [if_pos hany]; exact ih db c hcs
      · rw [if_neg hany]; exact ih (db ++ [toPaper c0]) c hcs

/-- Storing candidates whose keys are all already present is a no-op. -/
theorem store_papers_noop (cs : List PaperDict) (db : List Paper)
    (h : ∀ c ∈ cs, db.any (fun p => p.arxiv_id == c.arxiv_id) = true) :
    store_papers cs db = db := by
  induction cs with
  | nil => rfl
  | cons c cs ih =>
    rw [store_papers_cons, if_pos (h c (List.mem_cons_self c cs))]
    exact ih (fun c2 hc2 => h c2 (List.mem_cons_of_mem c hc2))

/-- A store preserves key uniqueness. -/
theorem store_papers_nodup (cs : List PaperDict) (db : List Paper)
    (h : (db.map (fun p => p.arxiv_id)).Nodup) :
    ((store_papers cs db).map (fun p => p.arxiv_id)).Nodup := by
  induction cs generalizing db with
  | nil => exact h
  | cons c cs ih =>
    rw [store_papers_cons]
    by_cases hany : db.any (fun p => p.arxiv_id == c.arxiv_id) = true
    · rw [if_pos hany]; exact ih db h
    · rw [if_neg hany]
      apply ih
      rw [List.map_append, List.nodup_append]
      refine ⟨h, by simp, ?_⟩
      intro k hk hk2
      have hkc : k = c.arxiv_id := by
        simpa [toPaper] using hk2
      subst hkc
      obtain ⟨p, hp, hpk⟩ := List.mem_map.mp hk
      have : db.any (fun q => q.arxiv_id == c.arxiv_id) = true :=
        List.any_eq_true.mpr ⟨p, hp, by simp [hpk]⟩
      exact hany this

/-- C6: the upsert is idempotent — storing the same candidate list twice
changes nothing the second time; a store only appends (existing rows are not
modified); key uniqueness is preserved and each stored candidate ends up with
exactly one row for its `arxiv_id`; and a single candidate whose `arxiv_id`
already exists is a no-op. -/
theorem store_papers_idempotent (cs : List PaperDict) (db : List Paper)
    (hkeys : (db.map (fun p => p.arxiv_id)).Nodup) :
    store_papers cs (store_papers cs db) = store_papers cs db ∧
    (∃ new, store_papers cs db = db ++ new) ∧
    ((store_papers cs db).map (fun p => p.arxiv_id)).Nodup ∧
    (∀ c ∈ cs, (store_papers cs db).countP (fun p => p.arxiv_id == c.arxiv_id) = 1) ∧
    (∀ c : PaperDict, db.any (fun p => p.arxiv_id == c.arxiv_id) = true →
      store_papers [c] db = db) := by
  refine ⟨store_papers_noop cs _ (store_papers_key_present cs db), store_papers_extends cs db,
    store_papers_nodup cs db hkeys, ?_, ?_⟩
  · intro c hc
    have hnd := store_papers_nodup cs db hkeys
    have hcount : ((store_papers cs db).map (fun p => p.arxiv_id)).count c.arxiv_id ≤ 1 :=
      List.nodup_iff_count_le_one.mp hnd c.arxiv_id
    have heq : ((store_papers cs db).map (fun p => p.arxiv_id)).count c.arxiv_id
        = (store_papers cs db).countP (fun p => p.arxiv_id == c.arxiv_id) := by
      rw [List.count_eq_countP, List.countP_map]
      rfl
    have hpos : 0 < (store_papers cs db).countP (fun p => p.arxiv_id == c.arxiv_id) := by
      obtain ⟨p, hp, hpk⟩ := List.any_eq_true.mp (store_papers_key_present cs db c hc)
      exact List.countP_pos_iff.mpr ⟨p, hp, hpk⟩
    omega
  · intro c hany
    exact store_papers_noop [c] db (by
      intro c2 hc2
      rw [List.mem_singleton.mp hc2]
      exact hany)

/-- C6 witness: storing the same two candidates twice (on a table already
holding one of them) keeps exactly one row per key. -/
theorem store_papers_idempotent_witness :
    (([⟨"a1", "t", "", "", some "cs.AI", some 5, none⟩] : List Paper).map
        (fun p => p.arxiv_id)).Nodup ∧
    (∀ c ∈ ([⟨"a1", "t", "x", "y", some "cs.AI", some 5⟩,
             ⟨"a2", "u", "", "", some "math", some 7⟩] : List PaperDict),
      (store_papers
          [⟨"a1", "t", "x", "y", some "cs.AI", some 5⟩,
           ⟨"a2", "u", "", "", some "math", some 7⟩]
          [⟨"a1", "t", "", "", some "cs.AI", some 5, none⟩]).countP
        (fun p => p.arxiv_id == c.arxiv_id) = 1) :=
  ⟨by decide,
    (store_papers_idempotent
      [⟨"a1", "t", "x", "y", some "cs.AI", some 5⟩,
       ⟨"a2", "u", "", "", some "math", some 7⟩]
      [⟨"a1", "t", "", "", some "cs.AI", some 5, none⟩] (by decide)).2.2.2.1⟩

/-! ## Fetch retry theorems (claims C5, C8) -/

/-- C5: with `max_retries = 3` and three consecutive timeouts, the fetch
makes exactly 3 request attempts with backoff waits of 5 then 10 seconds (no
wait after the final attempt) and returns an empty list instead of an error;
and a category whose fetch exhausts its retries does not affect the papers
ingested for the remaining categories of the same run. -/
theorem fetch_papers_three_timeouts (category : String) :
    fetch_papers category (fun _ => AttemptOutcome.timeout) 3 =
      ([], [FetchEvent.call, FetchEvent.wait 5, FetchEvent.call, FetchEvent.wait 10,
        FetchEvent.call]) ∧
    (fetch_papers category (fun _ => AttemptOutcome.timeout) 3).2.countP
      (fun e => e == FetchEvent.call) = 3 ∧
    (∀ (name : String) (rest : List (String × (Nat → AttemptOutcome))) (db : List Paper),
      (ingest_papers_for_categories ((name, fun _ => AttemptOutcome.timeout) :: rest) db).1 =
        (ingest_papers_for_categories rest db).1) :=
  ⟨rfl, rfl, fun _ _ _ => rfl⟩

/-- All gaps between successive calls inside the retry loop are at least 3
seconds, provided at least 3 seconds of waits have accumulated since the call
preceding the loop. -/
theorem fetchLoop_gaps (o : Nat → AttemptOutcome) (maxR : Nat) :
    ∀ (rem attempt acc : Nat), 3 ≤ acc →
      ∀ g ∈ callGapsAux (fetchLoop o maxR attempt rem).2 (some acc), 3 ≤ g := by
  intro rem
  induction rem with
  | zero =>
    intro attempt acc hacc g hg
    simp [fetchLoop, callGapsAux] at hg
  | succ rem ih =>
    intro attempt acc hacc g hg
    have hpow : 1 ≤ 2 ^ attempt := Nat.one_le_two_pow
    rcases h : o attempt with _ | _ | _ | entries
    · simp only [fetchLoop, h] at hg
      by_cases hlt : attempt < maxR - 1
      · simp only [if_pos hlt, callGapsAux] at hg
        rcases List.mem_cons.mp hg with rfl | hg2
        · exact hacc
        · exact ih (attempt + 1) _ (by omega) g hg2
      · simp only [if_neg hlt, callGapsAux] at hg
        rcases List.mem_singleton.mp hg with rfl
        exact hacc
    · simp only [fetchLoop, h] at hg
      by_cases hlt : attempt < maxR - 1
      · simp only [if_pos hlt, callGapsAux] at hg
        rcases List.mem_cons.mp hg with rfl | hg2
        · exact hacc
        · exact ih (attempt + 1) _ (by omega) g hg2
      · simp only [if_neg hlt, callGapsAux] at hg
        rcases List.mem_singleton.mp hg with rfl
        exact hacc
    · simp only [fetchLoop, h] at hg
      by_cases hlt : attempt < maxR - 1
      · simp only [if_pos hlt, callGapsAux] at hg
        rcases List.mem_cons.mp hg with rfl | hg2
        · exact hacc
        · exact ih (attempt + 1) _ (by omega) g hg2
      · simp only [if_neg hlt, callGapsAux] at hg
        rcases List.mem_singleton.mp hg with rfl
        exact hacc
    · cases hp : parse_arxiv_response entries with
      | ok ps =>
        simp only [fetchLoop, h, hp, callGapsAux] at hg
        rcases List.mem_singleton.mp hg with rfl
        exact hacc
      | error msg =>
        simp only [fetchLoop, h, hp] at hg
        by_cases hlt : attempt < maxR - 1
        · simp only [if_pos hlt, callGapsAux] at hg
          rcases List.mem_cons.mp hg with rfl | hg2
          · exact hacc
          · exact ih (attempt + 1) _ (by omega) g hg2
        · simp only [if_neg hlt, callGapsAux] at hg
          rcases List.mem_singleton.mp hg with rfl
          exact hacc

/-- C8 amended: within a single `fetch_papers` invocation, at least 3
seconds elapse between successive calls to the external feed, whatever the
attempt outcomes (the backoffs are 5·2^i ≥ 5 seconds, and the post-success
rate-limit sleep is 3 seconds). -/
theorem fetch_papers_call_spacing (category : String) (o : Nat → AttemptOutcome)
    (maxR : Nat) : ∀ g ∈ callGaps (fetch_papers category o maxR).2, 3 ≤ g := by
  intro g hg
  unfold fetch_papers callGaps at hg
  cases maxR with
  | zero => simp [fetchLoop, callGapsAux] at hg
  | succ m =>
    have hpow : 1 ≤ 2 ^ (0 : Nat) := Nat.one_le_two_pow
    rcases h : o 0 with _ | _ | _ | entries
    · simp only [fetchLoop, h] at hg
      by_cases hlt : 0 < m + 1 - 1
      · simp only [if_pos hlt, callGapsAux] at hg
        exact fetchLoop_gaps o (m + 1) m 1 _ (by omega) g hg
      · simp only [if_neg hlt, callGapsAux] at hg
        exact absurd hg (List.not_mem_nil g)
    · simp only [fetchLoop, h] at hg
      by_cases hlt : 0 < m + 1 - 1
      · simp only [if_pos hlt, callGapsAux] at hg
        exact fetchLoop_gaps o (m + 1) m 1 _ (by omega) g hg
      · simp only [if_neg hlt, callGapsAux] at hg
        exact absurd hg (List.not_mem_nil g)
    · simp only [fetchLoop, h] at hg
      by_cases hlt : 0 < m + 1 - 1
      · simp only [if_pos hlt, callGapsAux] at hg
        exact fetchLoop_gaps o (m + 1) m 1 _ (by omega) g hg
      · simp only [if_neg hlt, callGapsAux] at hg
        exact absurd hg (List.not_mem_nil g)
    · cases hp : parse_arxiv_response entries with
      | ok ps =>
        simp only [fetchLoop, h, hp, callGapsAux] at hg
        exact absurd hg (List.not_mem_nil g)
      | error msg =>
        simp only [fetchLoop, h, hp] at hg
        by_cases hlt : 0 < m + 1 - 1
        · simp only [if_pos hlt, callGapsAux] at hg
          exact fetchLoop_gaps o (m + 1) m 1 _ (by omega) g hg
        · simp only [if_neg hlt, callGapsAux] at hg
          exact absurd hg (List.not_mem_nil g)

/-- C8 counterexample: an ingestion run over two categories where the first
fetch exhausts its retries puts the next category's first call 0 seconds
after the previous call — the claimed 3-second minimum spacing between any
two successive feed calls regardless of outcome is violated. -/
theorem ingest_call_spacing_counterexample :
    callGaps (ingest_papers_for_categories
      [("cs.AI", fun _ => AttemptOutcome.timeout),
       ("math", fun _ => AttemptOutcome.success [])] []).2 = [5, 10, 0] ∧
    ¬ (∀ g ∈ callGaps (ingest_papers_for_categories
        [("cs.AI", fun _ => AttemptOutcome.timeout),
         ("math", fun _ => AttemptOutcome.success [])] []).2, 3 ≤ g) :=
  ⟨rfl, fun h => absurd (h 0 (by decide)) (by decide)⟩

/-- C8 amended-claim witness: the 5-second backoff gap of a concrete
all-timeout fetch satisfies the 3-second bound. -/
theorem fetch_papers_call_spacing_witness :
    5 ∈ callGaps (fetch_papers "cs.AI" (fun _ => AttemptOutcome.timeout) 3).2 ∧ 3 ≤ 5 :=
  ⟨by decide,
    fetch_papers_call_spacing "cs.AI" (fun _ => AttemptOutcome.timeout) 3 5 (by decide)⟩

/-! ## Parsing theorems (claim C9) -/

/-- An entry with an id text parses into a candidate related to it by
`entryDegrades`. -/
theorem parse_entry_ok {e : Entry} {s : String} (h : e.idText = some s) :
    ∃ p, parse_entry e = Except.ok p ∧ entryDegrades e p := by
  refine ⟨{ arxiv_id := lastSegment s
            title := match e.title with
              | some t => normWs t
              | none => ""
            authors := String.intercalate ", "
              ((e.authorNames.filterMap id).filter (fun a => a ≠ ""))
            summary := match e.summary with
              | some s2 => normWs s2
              | none => ""
            category := e.primaryCategoryTerms.head?
            published_at := e.published }, ?_, ?_⟩
  · simp [parse_entry, h]
  · refine ⟨?_, ?_, ?_, ?_, ?_, rfl⟩
    · intro s2 hs2
      rw [h] at hs2
      cases hs2
      rfl
    · intro ht; simp [ht]
    · intro hs3; simp [hs3]
    · intro ha; simp [ha]; rfl
    · intro hc; simp [hc]

/-- When every entry carries an id, the whole batch parses, one candidate
per entry, each degrading per `entryDegrades`. -/
theorem parse_ok_of_ids (entries : List Entry) (h : ∀ e ∈ entries, e.idText ≠ none) :
    ∃ ps, parse_arxiv_response entries = Except.ok ps ∧
      ps.length = entries.length ∧ List.Forall₂ entryDegrades entries ps := by
  induction entries with
  | nil => exact ⟨[], rfl, rfl, List.Forall₂.nil⟩
  | cons e rest ih =>
    have he : e.idText ≠ none := h e (List.mem_cons_self e rest)
    cases hid : e.idText with
    | none => exact absurd hid he
    | some s =>
      obtain ⟨p, hp, hdeg⟩ := parse_entry_ok hid
      obtain ⟨ps, hps, hlen, hfa⟩ := ih (fun e2 he2 => h e2 (List.mem_cons_of_mem e he2))
      refine ⟨p :: ps, ?_, by simp [hlen], List.Forall₂.cons hdeg hfa⟩
      simp only [parse_arxiv_response, hp, hps]

/-- An entry with no id text makes the whole batch parse fail. -/
theorem parse_error_of_missing_id (entries : List Entry) (e : Entry)
    (he : e ∈ entries) (hnone : e.idText = none) :
    (parse_arxiv_response entries).isOk = false := by
  induction entries with
  | nil => exact absurd he (List.not_mem_nil e)
  | cons e0 rest ih =>
    rcases List.mem_cons.mp he with rfl | hrest
    · simp [parse_arxiv_response, parse_entry, hnone, Except.isOk, Except.toBool]
    · cases hp : parse_entry e0 with
      | error m => simp [parse_arxiv_response, hp, Except.isOk, Except.toBool]
      | ok p =>
        have hr := ih hrest
        cases hps : parse_arxiv_response rest with
        | error m => simp [parse_arxiv_response, hp, hps, Except.isOk, Except.toBool]
        | ok ps => rw [hps] at hr; exact absurd hr (by simp [Except.isOk, Except.toBool])

/-- C9 amended: parsing produces one candidate per entry, with missing
optional fields (title, authors, summary, category) degrading to the empty
string or `none` without failing the batch — but an entry missing its natural
key (the `atom:id` text) raises and aborts the parse of the whole batch
(which the enclosing fetch treats as a failed attempt), rather than being
dropped individually. -/
theorem parse_arxiv_response_degrades (entries : List Entry) :
    ((∀ e ∈ entries, e.idText ≠ none) →
      ∃ ps, parse_arxiv_response entries = Except.ok ps ∧
        ps.length = entries.length ∧ List.Forall₂ entryDegrades entries ps) ∧
    (∀ e ∈ entries, e.idText = none → (parse_arxiv_response entries).isOk = false) :=
  ⟨parse_ok_of_ids entries, fun e he hn => parse_error_of_missing_id entries e he hn⟩

/-- C9 counterexample: a batch holding one well-formed entry and one entry
without an id does not parse to the one good candidate with the bad entry
dropped — the whole parse fails. -/
theorem parse_arxiv_response_missing_id_counterexample :
    (parse_arxiv_response
      [⟨some "http://arxiv.org/abs/2401.00001", some "Good", [some "Ann"],
        some "Sum", ["cs.AI"], some 11⟩,
       ⟨none, some "Bad", [], none, [], none⟩]).isOk = false ∧
    parse_arxiv_response
      [⟨some "http://arxiv.org/abs/2401.00001", some "Good", [some "Ann"],
        some "Sum", ["cs.AI"], some 11⟩,
       ⟨none, some "Bad", [], none, [], none⟩] ≠
      Except.ok [⟨"2401.00001", "Good", "Ann", "Sum", some "cs.AI", some 11⟩] :=
  ⟨by decide, fun h => Except.noConfusion h⟩

/-- C9 witness: a concrete batch with ids and missing optional fields parses
whole with the degradations, and a concrete keyless batch fails. -/
theorem parse_arxiv_response_degrades_witness :
    (∃ ps, parse_arxiv_response
        [⟨some "http://arxiv.org/abs/2401.00001", none, [], none, [], none⟩] =
          Except.ok ps ∧
      ps.length = ([⟨some "http://arxiv.org/abs/2401.00001", none, [], none, [], none⟩]
        : List Entry).length ∧
      List.Forall₂ entryDegrades
        [⟨some "http://arxiv.org/abs/2401.00001", none, [], none, [], none⟩] ps) ∧
    (parse_arxiv_response [(⟨none, some "Bad", [], none, [], none⟩ : Entry)]).isOk = false :=
  ⟨(parse_arxiv_response_degrades
      [⟨some "http://arxiv.org/abs/2401.00001", none, [], none, [], none⟩]).1
        (by decide),
    (parse_arxiv_response_degrades [(⟨none, some "Bad", [], none, [], none⟩ : Entry)]).2
      ⟨none, some "Bad", [], none, [], none⟩ (by decide) rfl⟩
